import Mathlib

/-!
# URL shortener core — shallow embedding

A Lean model of `src/app/actions.ts`: a Redis-backed URL shortener with four
operations (`shortenUrl`, `lookupUrl`, `extendUrl`, `getUrls`).  The Redis
state is modelled as an explicit `Store` value threaded through each
operation; timestamps are milliseconds since the epoch (`Date.getTime()`)
as integers; the WHATWG URL validation performed by `new URL(longUrl)` is
abstracted as a boolean oracle `validUrl`, and `Math.random`-driven code
generation as a candidate stream `gen : Nat → String` consumed in order.
The unbounded `while (await redis.exists(...))` collision loop is embedded
with an explicit fuel counter: a `none` result means the loop has not yet
terminated within `fuel` generation attempts.
-/

set_option autoImplicit false

deriving instance DecidableEq for Except

namespace UrlShortener

/-- Milliseconds since the epoch, as produced by JavaScript `Date.getTime()`. -/
abbrev Time := Int

/-- The `UrlMapping` interface of `actions.ts` (lines 9–15).  `createdAt` and
`expiresAt` are ISO strings in the source but are only ever compared through
`new Date(...).getTime()`, so they are embedded as integer timestamps. -/
structure UrlMapping where
  shortUrl : String
  longUrl : String
  createdAt : Time
  expiresAt : Time
  clientId : String
deriving Repr, DecidableEq, Inhabited

/-- One Redis string entry: the serialized mapping together with the TTL in
seconds passed to `SET key value EX ttl`. -/
structure Entry where
  mapping : UrlMapping
  ttl : Nat
deriving Repr, DecidableEq

/-- The Redis state visible to `actions.ts`: the `url:<code>` string keys and
the `user:<clientId>:urls` set keys, each as an association list. -/
structure Store where
  urls : List (String × Entry)
  userUrls : List (String × List String)
deriving Repr, DecidableEq

/-- `GET url:<code>`, returning the full stored entry. -/
def Store.getEntry (s : Store) (code : String) : Option Entry :=
  (s.urls.find? (fun e => e.1 == code)).map (·.2)

/-- `GET url:<code>`, deserialized to the mapping. -/
def Store.getUrl (s : Store) (code : String) : Option UrlMapping :=
  (s.getEntry code).map (·.mapping)

/-- `EXISTS url:<code>`. -/
def Store.urlExists (s : Store) (code : String) : Bool :=
  (s.getUrl code).isSome

/-- `SET url:<code> <record> EX <ttl>`: overwrites any previous entry. -/
def Store.setUrl (s : Store) (code : String) (m : UrlMapping) (ttl : Nat) : Store :=
  { s with urls := (code, ⟨m, ttl⟩) :: s.urls.filter (fun e => e.1 != code) }

/-- `DEL url:<code>`. -/
def Store.delUrl (s : Store) (code : String) : Store :=
  { s with urls := s.urls.filter (fun e => e.1 != code) }

/-- `SMEMBERS user:<clientId>:urls`. -/
def Store.userCodes (s : Store) (clientId : String) : List String :=
  ((s.userUrls.find? (fun e => e.1 == clientId)).map (·.2)).getD []

/-- `SADD user:<clientId>:urls <code>`: set semantics, no duplicate members. -/
def Store.sadd (s : Store) (clientId code : String) : Store :=
  let cur := s.userCodes clientId
  let upd := if code ∈ cur then cur else cur ++ [code]
  { s with userUrls := (clientId, upd) :: s.userUrls.filter (fun e => e.1 != clientId) }

/-- `SREM user:<clientId>:urls <code>`. -/
def Store.srem (s : Store) (clientId code : String) : Store :=
  let cur := s.userCodes clientId
  { s with
    userUrls := (clientId, cur.filter (fun c => c != code)) ::
      s.userUrls.filter (fun e => e.1 != clientId) }

/-- The typed failures thrown by `actions.ts` (the spec's `InvalidInput` covers
the first two constructors; `notFound` is "URL not found or expired";
`unauthorized` is "Unauthorized access to URL"). -/
inductive UrlError where
  | clientIdRequired
  | invalidUrl
  | notFound
  | unauthorized
deriving Repr, DecidableEq

/-- 48 hours in milliseconds, `48 * 60 * 60 * 1000`. -/
def hours48 : Int := 48 * 60 * 60 * 1000

/-- `Math.ceil(ms / 1000)` for the nonnegative millisecond difference used as
a TTL. -/
def ceilSeconds (ms : Int) : Nat :=
  (ms.toNat + 999) / 1000

/-- JavaScript truthiness of an optional string: `undefined` and `""` are
falsy.  `lookupUrl` guards both its ownership check and its index pruning with
`if (clientId)`. -/
def truthy : Option String → Bool
  | none => false
  | some c => c != ""

/-- The collision loop of `shortenUrl` (actions.ts lines 43–46): take
candidates `gen i, gen (i+1), ...` while the candidate's key already exists.
`fuel` bounds how many candidates the embedding inspects; `none` means every
inspected candidate collided, i.e. the source loop is still running after
`fuel` attempts. -/
def findFresh (s : Store) (gen : Nat → String) (i : Nat) : Nat → Option String
  | 0 => none
  | fuel + 1 =>
    let c := gen i
    if s.urlExists c then findFresh s gen (i + 1) fuel else some c

/-- `shortenUrl` (actions.ts lines 31–67).  Returns the result paired with the
resulting store; a `none` marks a run whose collision loop exceeded `fuel`
generation attempts without finding a fresh code. -/
def shortenUrl (validUrl : String → Bool) (gen : Nat → String) (fuel : Nat)
    (now : Time) (longUrl clientId : String) (s : Store) :
    Option ((Except UrlError String) × Store) :=
  if clientId == "" then some (.error .clientIdRequired, s)
  else if !(validUrl longUrl) then some (.error .invalidUrl, s)
  else
    match findFresh s gen 0 fuel with
    | none => none
    | some shortCode =>
      let createdAt := now
      let expiresAt := now + hours48
      let mapping : UrlMapping :=
        ⟨shortCode, longUrl, createdAt, expiresAt, clientId⟩
      let s1 := s.setUrl shortCode mapping (ceilSeconds (expiresAt - now))
      let s2 := s1.sadd clientId shortCode
      some (.ok shortCode, s2)

/-- `lookupUrl` (actions.ts lines 70–93).  The ownership check and the index
pruning are both guarded by the truthiness of `clientId`. -/
def lookupUrl (now : Time) (shortCode : String) (clientId : Option String)
    (s : Store) : (Except UrlError UrlMapping) × Store :=
  match s.getUrl shortCode with
  | none => (.error .notFound, s)
  | some mapping =>
    if truthy clientId && (clientId != some mapping.clientId) then
      (.error .unauthorized, s)
    else if mapping.expiresAt ≤ now then
      let s1 := s.delUrl shortCode
      let s2 := if truthy clientId then s1.srem (clientId.getD "") shortCode else s1
      (.error .notFound, s2)
    else
      (.ok mapping, s)

/-- `extendUrl` (actions.ts lines 96–127): adds 48 hours to the stored
`expiresAt` (not to `now`) and rewrites the record with TTL
`Math.ceil((newExpiresAt - now) / 1000)`. -/
def extendUrl (now : Time) (shortCode clientId : String) (s : Store) :
    (Except UrlError Unit) × Store :=
  if clientId == "" then (.error .clientIdRequired, s)
  else
    match s.getUrl shortCode with
    | none => (.error .notFound, s)
    | some mapping =>
      if mapping.clientId != clientId then (.error .unauthorized, s)
      else if mapping.expiresAt ≤ now then
        (.error .notFound, (s.delUrl shortCode).srem clientId shortCode)
      else
        let newExpiresAt := mapping.expiresAt + hours48
        let mapping1 := { mapping with expiresAt := newExpiresAt }
        (.ok (), s.setUrl shortCode mapping1 (ceilSeconds (newExpiresAt - now)))

/-- The loop body of `getUrls` (actions.ts lines 139–151) for one short code:
a missing record is skipped with no cleanup; a record that is expired or
belongs to another client is deleted and pruned from the caller's index; a
live owned record is appended to the accumulator. -/
def collectStep (now : Time) (clientId : String)
    (st : Store × List UrlMapping) (shortCode : String) :
    Store × List UrlMapping :=
  match st.1.getUrl shortCode with
  | none => st
  | some mapping =>
    if now < mapping.expiresAt && mapping.clientId == clientId then
      (st.1, st.2 ++ [mapping])
    else
      ((st.1.delUrl shortCode).srem clientId shortCode, st.2)

/-- The collection phase of `getUrls`: iterate `collectStep` over the snapshot
of the caller's index set. -/
def collectMappings (now : Time) (clientId : String) (s : Store) :
    Store × List UrlMapping :=
  (s.userCodes clientId).foldl (collectStep now clientId) (s, [])

/-- Stable insertion into a list sorted by `createdAt` descending: the new
element, which precedes the list elements in arrival order, goes before any
element with an equal key. -/
def insertByCreatedDesc (m : UrlMapping) : List UrlMapping → List UrlMapping
  | [] => [m]
  | x :: xs =>
    if x.createdAt ≤ m.createdAt then m :: x :: xs
    else x :: insertByCreatedDesc m xs

/-- The stable sort `mappings.sort((a, b) => b.createdAt - a.createdAt)` of
actions.ts line 154 (ECMAScript `Array.prototype.sort` is stable), embedded
as a stable insertion sort producing the same list. -/
def sortByCreatedDesc : List UrlMapping → List UrlMapping
  | [] => []
  | x :: xs => insertByCreatedDesc x (sortByCreatedDesc xs)

/-- `getUrls` (actions.ts lines 130–164): collect with lazy cleanup, sort by
creation time descending, then paginate with
`totalPages = Math.max(1, Math.ceil(count / pageSize))` and the slice
`[(page-1)*pageSize, page*pageSize)`. -/
def getUrls (now : Time) (page pageSize : Nat) (clientId : String) (s : Store) :
    (Except UrlError (List UrlMapping × Nat)) × Store :=
  if clientId == "" then (.error .clientIdRequired, s)
  else
    let (s1, mappings) := collectMappings now clientId s
    let sorted := sortByCreatedDesc mappings
    let totalPages := (sorted.length + pageSize - 1) / pageSize
    let startIndex := (page - 1) * pageSize
    let paginatedUrls := (sorted.drop startIndex).take pageSize
    (.ok (paginatedUrls, max 1 totalPages), s1)

/-- Well-formedness of the embedded Redis state: the string keys are
pairwise distinct, as they are in a real key-value store. -/
def Store.WF (s : Store) : Prop := (s.urls.map Prod.fst).Nodup

/-- States reachable from the empty store by any sequence of the four
service operations (with arbitrary validators, candidate streams, times and
arguments). -/
inductive Reachable : Store → Prop where
  | empty : Reachable ⟨[], []⟩
  | create {validUrl : String → Bool} {gen : Nat → String} {fuel : Nat}
      {now : Time} {longUrl clientId : String} {s : Store}
      {r : Except UrlError String} {s2 : Store} :
      Reachable s →
      shortenUrl validUrl gen fuel now longUrl clientId s = some (r, s2) →
      Reachable s2
  | lookup {now : Time} {code : String} {cid : Option String} {s : Store} :
      Reachable s → Reachable (lookupUrl now code cid s).2
  | extend {now : Time} {code clientId : String} {s : Store} :
      Reachable s → Reachable (extendUrl now code clientId s).2
  | list {now : Time} {page pageSize : Nat} {clientId : String} {s : Store} :
      Reachable s → Reachable (getUrls now page pageSize clientId s).2

/-- A URL validator accepting every string, for concrete runs. -/
def acceptAll : String → Bool := fun _ => true

/-- A candidate stream constantly producing the code `AAAAA`. -/
def constGen : Nat → String := fun _ => "AAAAA"

/-- The empty Redis state. -/
def emptyStore : Store := ⟨[], []⟩

/-- The state `shortenUrl acceptAll constGen 1 0 "https://example.com"
"alice" emptyStore` produces: one live record expiring at `0 + 48h`. -/
def aliceStore : Store :=
  ⟨[("AAAAA", ⟨⟨"AAAAA", "https://example.com", 0, 172800000, "alice"⟩, 172800⟩)],
   [("alice", ["AAAAA"])]⟩

/-- A state holding a record of alice that expired at time 100. -/
def expiredStore : Store :=
  ⟨[("AAAAA", ⟨⟨"AAAAA", "https://example.com", 0, 100, "alice"⟩, 1⟩)],
   [("alice", ["AAAAA"])]⟩

/-- A state whose owner index holds a code with no stored record. -/
def danglingStore : Store := ⟨[], [("alice", ["GHOST"])]⟩

/-! ## Helper lemmas about the store primitives -/

theorem sadd_urls (s : Store) (c k : String) : (s.sadd c k).urls = s.urls := rfl

theorem srem_urls (s : Store) (c k : String) : (s.srem c k).urls = s.urls := rfl

theorem getUrl_sadd (s : Store) (c k code : String) :
    (s.sadd c k).getUrl code = s.getUrl code := rfl

theorem getUrl_srem (s : Store) (c k code : String) :
    (s.srem c k).getUrl code = s.getUrl code := rfl

theorem getUrl_setUrl_self (s : Store) (code : String) (m : UrlMapping) (ttl : Nat) :
    (s.setUrl code m ttl).getUrl code = some m := by
  simp [Store.setUrl, Store.getUrl, Store.getEntry]

theorem getUrl_delUrl_self (s : Store) (code : String) :
    (s.delUrl code).getUrl code = none := by
  simp only [Store.delUrl, Store.getUrl, Store.getEntry]
  rw [List.find?_eq_none.2]
  · rfl
  · intro e he
    simp only [List.mem_filter, bne_iff_ne, ne_eq] at he
    simp [he.2]

/-! ## Claim theorems -/

/-- C1: for every syntactically valid absolute URL `u` and non-empty owner id
`o`, `create(u, o)` followed by `resolve` with the returned short code and the
same owner id succeeds and returns a record whose `longUrl` equals `u`
unchanged. -/
theorem create_then_resolve_roundtrip
    (validUrl : String → Bool) (gen : Nat → String) (fuel : Nat) (now : Time)
    (longUrl clientId : String) (s s2 : Store) (code : String)
    (hvalid : validUrl longUrl = true) (howner : clientId ≠ "")
    (hcreate : shortenUrl validUrl gen fuel now longUrl clientId s =
      some (.ok code, s2)) :
    ∃ m : UrlMapping,
      lookupUrl now code (some clientId) s2 = (.ok m, s2) ∧
      m.longUrl = longUrl := by
  unfold shortenUrl at hcreate
  rw [if_neg (by simp [howner]), if_neg (by simp [hvalid])] at hcreate
  split at hcreate
  · exact absurd hcreate (by simp)
  · next sc hfind =>
    simp only [Option.some.injEq, Prod.mk.injEq, Except.ok.injEq] at hcreate
    obtain ⟨rfl, rfl⟩ := hcreate
    refine ⟨⟨sc, longUrl, now, now + hours48, clientId⟩, ?_, rfl⟩
    unfold lookupUrl
    rw [getUrl_sadd, getUrl_setUrl_self]
    simp only [truthy, bne_self_eq_false, Bool.and_false, Bool.false_eq_true,
      if_false]
    rw [if_neg (by simp [hours48])]

/-- Witness for C1 at a concrete input: create for alice at time 0, then
resolve as alice. -/
theorem create_then_resolve_roundtrip_witness :
    ∃ m : UrlMapping,
      lookupUrl 0 "AAAAA" (some "alice") aliceStore = (.ok m, aliceStore) ∧
      m.longUrl = "https://example.com" :=
  create_then_resolve_roundtrip acceptAll constGen 1 0 "https://example.com"
    "alice" emptyStore aliceStore "AAAAA" rfl (by decide) (by decide)

/-- C2: for every stored mapping, resolve with a non-empty owner id different
from the record's owner fails with `Unauthorized` (not `NotFound`), and
resolve with no owner id supplied succeeds on a live record regardless of who
created it. -/
theorem resolve_ownership_check
    (now : Time) (code : String) (s : Store) (m : UrlMapping)
    (hget : s.getUrl code = some m) :
    (∀ o : String, o ≠ "" → o ≠ m.clientId →
      lookupUrl now code (some o) s = (.error .unauthorized, s)) ∧
    (now < m.expiresAt → lookupUrl now code none s = (.ok m, s)) := by
  constructor
  · intro o ho hne
    unfold lookupUrl
    rw [hget]
    dsimp only
    rw [if_pos (by simp [truthy, bne_iff_ne, ho, hne])]
  · intro hlive
    unfold lookupUrl
    rw [hget]
    dsimp only
    rw [if_neg (by simp [truthy]), if_neg (not_le.mpr hlive)]

/-- Witness for C2: bob's resolve of alice's record is unauthorized, an
anonymous resolve succeeds. -/
theorem resolve_ownership_check_witness :
    lookupUrl 0 "AAAAA" (some "bob") aliceStore =
      (.error .unauthorized, aliceStore) ∧
    lookupUrl 0 "AAAAA" none aliceStore =
      (.ok ⟨"AAAAA", "https://example.com", 0, 172800000, "alice"⟩, aliceStore) := by
  have h := resolve_ownership_check 0 "AAAAA" aliceStore
    ⟨"AAAAA", "https://example.com", 0, 172800000, "alice"⟩ (by decide)
  exact ⟨h.1 "bob" (by decide) (by decide), h.2 (by decide)⟩

theorem hours48_pos : (0 : Time) < hours48 := by norm_num [hours48]

/-- Resolving a code with no stored record fails `NotFound` with no side
effect, whoever asks. -/
theorem lookupUrl_none_eq (now : Time) (code : String) (cid : Option String)
    (s : Store) (h : s.getUrl code = none) :
    lookupUrl now code cid s = (.error .notFound, s) := by
  unfold lookupUrl
  rw [h]

/-- The effect of `extendUrl` on a live record owned by the caller: the
stored record is rewritten with `expiresAt` advanced by 48 hours and a TTL of
the new remaining lifetime, rounded up to seconds. -/
theorem extendUrl_live_eq
    (now : Time) (code clientId : String) (s : Store) (m : UrlMapping)
    (hget : s.getUrl code = some m) (howner : m.clientId = clientId)
    (hcid : clientId ≠ "") (hlive : now < m.expiresAt) :
    extendUrl now code clientId s =
      (.ok (), s.setUrl code { m with expiresAt := m.expiresAt + hours48 }
        (ceilSeconds (m.expiresAt + hours48 - now))) := by
  unfold extendUrl
  rw [if_neg (by simp [hcid]), hget]
  dsimp only
  rw [if_neg (by simp [howner]), if_neg (not_le.mpr hlive)]

/-- C3 counterexample: on the freshly created record of `aliceStore`
(created at time 0 with `expiresAt` 48 hours later), two successive renew
calls yield an `expiresAt` 144 hours past the creation time, not the claimed
96 hours. -/
theorem renew_twice_not_96h_counterexample :
    (extendUrl 0 "AAAAA" "alice"
        (extendUrl 0 "AAAAA" "alice" aliceStore).2).2.getUrl "AAAAA" =
      some ⟨"AAAAA", "https://example.com", 0, 518400000, "alice"⟩ ∧
    (518400000 : Time) = 144 * 60 * 60 * 1000 ∧
    (518400000 : Time) ≠ 96 * 60 * 60 * 1000 := by
  decide

/-- C3 (amended): renewing a live mapping owned by the caller sets
`expiresAt` to exactly its prior value plus 48 hours (compounding on the
existing deadline, not computed from the current time) and rewrites the
record with a TTL equal to the new remaining lifetime in seconds, rounded
up; hence two successive renew calls on a freshly created mapping (whose
creation already granted 48 hours) yield an `expiresAt` 144 hours past the
original creation time. -/
theorem renew_compounds_48h
    (now : Time) (code clientId : String) (s : Store) (m : UrlMapping)
    (hget : s.getUrl code = some m) (howner : m.clientId = clientId)
    (hcid : clientId ≠ "") (hlive : now < m.expiresAt) :
    extendUrl now code clientId s =
      (.ok (), s.setUrl code { m with expiresAt := m.expiresAt + hours48 }
        (ceilSeconds (m.expiresAt + hours48 - now))) ∧
    (m.expiresAt = m.createdAt + hours48 →
      ∃ m2 : UrlMapping,
        (extendUrl now code clientId
            (extendUrl now code clientId s).2).2.getUrl code = some m2 ∧
        m2.expiresAt = m.createdAt + 3 * hours48) := by
  have h1 := extendUrl_live_eq now code clientId s m hget howner hcid hlive
  refine ⟨h1, fun hfresh => ?_⟩
  rw [h1]
  have hlive2 : now < m.expiresAt + hours48 := by
    linarith [hours48_pos]
  have h2 := extendUrl_live_eq now code clientId
    (s.setUrl code { m with expiresAt := m.expiresAt + hours48 }
      (ceilSeconds (m.expiresAt + hours48 - now)))
    { m with expiresAt := m.expiresAt + hours48 }
    (getUrl_setUrl_self _ _ _ _) howner hcid hlive2
  rw [h2]
  refine ⟨_, getUrl_setUrl_self _ _ _ _, ?_⟩
  simp only
  linarith

/-- Witness for C3's amended claim: two renews of alice's fresh record give
an expiry 144 hours past creation. -/
theorem renew_compounds_48h_witness :
    ∃ m2 : UrlMapping,
      (extendUrl 0 "AAAAA" "alice"
          (extendUrl 0 "AAAAA" "alice" aliceStore).2).2.getUrl "AAAAA" =
        some m2 ∧
      m2.expiresAt = (0 : Time) + 3 * hours48 :=
  (renew_compounds_48h 0 "AAAAA" "alice" aliceStore
    ⟨"AAAAA", "https://example.com", 0, 172800000, "alice"⟩
    (by decide) rfl (by decide) (by decide)).2 (by decide)

/-- C4 counterexample: on a stored mapping that is already expired
(`expiresAt` = 100 ≤ now = 200), resolve with a different owner id fails with
`Unauthorized`, not `NotFound`, and does not delete the record. -/
theorem resolve_expired_mismatch_counterexample :
    lookupUrl 200 "AAAAA" (some "bob") expiredStore =
      (.error .unauthorized, expiredStore) ∧
    expiredStore.getUrl "AAAAA" ≠ none := by
  decide

/-- C4 (amended): for a stored mapping whose `expiresAt` is ≤ now, a resolve
call that passes the ownership check (no owner id, a falsy one, or the
record's own owner — with any other supplied owner id the call fails
`Unauthorized` first and deletes nothing) deletes the record, removes the
code from the owner's index only if a truthy owner id was supplied, and
fails `NotFound`; a second resolve of the same code afterwards also fails
`NotFound`; and a live record is returned unchanged with no side effect on
the store. -/
theorem resolve_expired_cleanup
    (now : Time) (code : String) (s : Store) (m : UrlMapping)
    (cid : Option String) (hget : s.getUrl code = some m)
    (hown : truthy cid = true → cid = some m.clientId) :
    (m.expiresAt ≤ now →
      lookupUrl now code cid s =
        (.error .notFound,
          if truthy cid then (s.delUrl code).srem (cid.getD "") code
          else s.delUrl code) ∧
      (lookupUrl now code cid (lookupUrl now code cid s).2).1 =
        .error .notFound) ∧
    (now < m.expiresAt → lookupUrl now code cid s = (.ok m, s)) := by
  have hcond : (truthy cid && (cid != some m.clientId)) = false := by
    cases h : truthy cid with
    | false => simp
    | true => simp [hown h]
  constructor
  · intro hexp
    have heq : lookupUrl now code cid s =
        (.error .notFound,
          if truthy cid then (s.delUrl code).srem (cid.getD "") code
          else s.delUrl code) := by
      unfold lookupUrl
      rw [hget]
      dsimp only
      rw [if_neg (by simp [hcond]), if_pos hexp]
    refine ⟨heq, ?_⟩
    have hnone : (lookupUrl now code cid s).2.getUrl code = none := by
      rw [heq]
      cases htr : truthy cid <;>
        simp [htr, getUrl_srem, getUrl_delUrl_self]
    rw [lookupUrl_none_eq now code cid _ hnone]
  · intro hlive
    unfold lookupUrl
    rw [hget]
    dsimp only
    rw [if_neg (by simp [hcond]), if_neg (not_le.mpr hlive)]

/-- Witness for C4's amended claim: alice resolves her own expired record;
it is deleted, pruned from her index, and a second resolve is `NotFound`. -/
theorem resolve_expired_cleanup_witness :
    lookupUrl 200 "AAAAA" (some "alice") expiredStore =
      (.error .notFound,
        if truthy (some "alice") then
          (expiredStore.delUrl "AAAAA").srem ((some "alice").getD "") "AAAAA"
        else expiredStore.delUrl "AAAAA") ∧
    (lookupUrl 200 "AAAAA" (some "alice")
        (lookupUrl 200 "AAAAA" (some "alice") expiredStore).2).1 =
      .error .notFound :=
  (resolve_expired_cleanup 200 "AAAAA" expiredStore
    ⟨"AAAAA", "https://example.com", 0, 100, "alice"⟩ (some "alice")
    (by decide) (fun _ => rfl)).1 (by decide)

/-- C5 counterexample: a code present in the owner's index with no stored
record is left in the index by `getUrls` (no cleanup), not pruned. -/
theorem list_dangling_code_not_pruned_counterexample :
    getUrls 0 1 10 "alice" danglingStore = (.ok ([], 1), danglingStore) ∧
    (getUrls 0 1 10 "alice" danglingStore).2.userCodes "alice" = ["GHOST"] := by
  decide

/-- C5 (amended): for each code of the owner's index, `getUrls` fetches the
record; a record that is expired or owner-mismatched triggers cleanup (record
delete plus index prune) and is excluded from the results, and a live owned
record is collected — but a code with no stored record is merely skipped: it
is excluded from the results yet left in the index, with no cleanup. -/
theorem list_cleanup_step
    (now : Time) (clientId code : String) (s : Store) (acc : List UrlMapping) :
    (s.getUrl code = none → collectStep now clientId (s, acc) code = (s, acc)) ∧
    (∀ m : UrlMapping, s.getUrl code = some m →
      ((now < m.expiresAt ∧ m.clientId = clientId) →
        collectStep now clientId (s, acc) code = (s, acc ++ [m])) ∧
      (¬ (now < m.expiresAt ∧ m.clientId = clientId) →
        collectStep now clientId (s, acc) code =
          ((s.delUrl code).srem clientId code, acc))) := by
  refine ⟨fun h => ?_, fun m h => ⟨fun hc => ?_, fun hc => ?_⟩⟩
  · unfold collectStep
    rw [h]
  · unfold collectStep
    rw [h]
    dsimp only
    rw [if_pos (by simp [hc.1, hc.2])]
  · unfold collectStep
    rw [h]
    dsimp only
    rw [if_neg (by
      intro hcond
      simp only [Bool.and_eq_true, decide_eq_true_eq, beq_iff_eq] at hcond
      exact hc hcond)]

/-- C6: with a non-empty owner id and positive `page` and `pageSize`, `list`
returns at most `pageSize` records, `totalPages = max 1 ⌈count / pageSize⌉`,
the returned slice is `[(page-1)*pageSize, page*pageSize)` of the sorted
collection, and a page beyond `totalPages` yields an empty list, not an
error. -/
theorem list_pagination
    (now : Time) (page pageSize : Nat) (clientId : String) (s : Store)
    (hcid : clientId ≠ "") (hpage : 1 ≤ page) (hsize : 1 ≤ pageSize) :
    ∃ (urls : List UrlMapping) (totalPages : Nat),
      getUrls now page pageSize clientId s =
        (.ok (urls, totalPages), (collectMappings now clientId s).1) ∧
      urls.length ≤ pageSize ∧
      1 ≤ totalPages ∧
      totalPages =
        max 1 (((sortByCreatedDesc (collectMappings now clientId s).2).length
          + pageSize - 1) / pageSize) ∧
      urls = ((sortByCreatedDesc (collectMappings now clientId s).2).drop
        ((page - 1) * pageSize)).take pageSize ∧
      (totalPages < page → urls = []) := by
  rcases hcm : collectMappings now clientId s with ⟨s1, mappings⟩
  refine ⟨((sortByCreatedDesc mappings).drop ((page - 1) * pageSize)).take
      pageSize,
    max 1 (((sortByCreatedDesc mappings).length + pageSize - 1) / pageSize),
    ?_, ?_, le_max_left _ _, rfl, rfl, ?_⟩
  · unfold getUrls
    rw [if_neg (by simp [hcid]), hcm]
  · rw [List.length_take]
    omega
  · intro hlt
    have hT : ((sortByCreatedDesc mappings).length + pageSize - 1) / pageSize
        < page := lt_of_le_of_lt (le_max_right 1 _) hlt
    have hL : (sortByCreatedDesc mappings).length ≤ (page - 1) * pageSize := by
      by_contra hno
      push_neg at hno
      have hps : page * pageSize = (page - 1) * pageSize + pageSize := by
        cases page with
        | zero => omega
        | succ q => simp [Nat.succ_mul]
      have : page ≤ ((sortByCreatedDesc mappings).length + pageSize - 1)
          / pageSize := by
        rw [Nat.le_div_iff_mul_le hsize, hps]
        generalize (page - 1) * pageSize = A at hno ⊢
        omega
      omega
    rw [List.drop_eq_nil_of_le hL, List.take_nil]

/-- Witness for C6: page 1 of size 10 over alice's single record. -/
theorem list_pagination_witness :
    ∃ (urls : List UrlMapping) (totalPages : Nat),
      getUrls 0 1 10 "alice" aliceStore =
        (.ok (urls, totalPages), (collectMappings 0 "alice" aliceStore).1) ∧
      urls.length ≤ 10 ∧
      1 ≤ totalPages ∧
      totalPages =
        max 1 (((sortByCreatedDesc (collectMappings 0 "alice" aliceStore).2).length
          + 10 - 1) / 10) ∧
      urls = ((sortByCreatedDesc (collectMappings 0 "alice" aliceStore).2).drop
        ((1 - 1) * 10)).take 10 ∧
      (totalPages < 1 → urls = []) :=
  list_pagination 0 1 10 "alice" aliceStore (by decide) (by decide) (by decide)

/-- A URL validator rejecting every string, standing in for `new URL`
throwing on a malformed input such as `"not-a-url"`. -/
def rejectAll : String → Bool := fun _ => false

/-- C7: when the owner id is empty or the long URL is not accepted by the
URL validator, create fails with an invalid-input error before any store
access: the store state is returned exactly as it was, and the outcome does
not depend on the candidate generator or the retry budget (no short code is
consumed). -/
theorem create_invalid_input_no_store_access
    (validUrl : String → Bool) (gen : Nat → String) (fuel : Nat) (now : Time)
    (longUrl clientId : String) (s : Store)
    (h : clientId = "" ∨ validUrl longUrl = false) :
    ∃ e : UrlError,
      (e = .clientIdRequired ∨ e = .invalidUrl) ∧
      shortenUrl validUrl gen fuel now longUrl clientId s =
        some (.error e, s) ∧
      ∀ (gen2 : Nat → String) (fuel2 : Nat),
        shortenUrl validUrl gen2 fuel2 now longUrl clientId s =
          some (.error e, s) := by
  by_cases hc : clientId = ""
  · refine ⟨.clientIdRequired, Or.inl rfl, ?_, fun gen2 fuel2 => ?_⟩ <;>
      · unfold shortenUrl
        rw [if_pos (by simp [hc])]
  · have hv : validUrl longUrl = false := h.resolve_left hc
    refine ⟨.invalidUrl, Or.inr rfl, ?_, fun gen2 fuel2 => ?_⟩ <;>
      · unfold shortenUrl
        rw [if_neg (by simp [hc]), if_pos (by simp [hv])]

/-- Witness for C7: creating `"not-a-url"` for alice touches nothing. -/
theorem create_invalid_input_no_store_access_witness :
    ∃ e : UrlError,
      (e = .clientIdRequired ∨ e = .invalidUrl) ∧
      shortenUrl rejectAll constGen 5 0 "not-a-url" "alice" aliceStore =
        some (.error e, aliceStore) ∧
      ∀ (gen2 : Nat → String) (fuel2 : Nat),
        shortenUrl rejectAll gen2 fuel2 0 "not-a-url" "alice" aliceStore =
          some (.error e, aliceStore) :=
  create_invalid_input_no_store_access rejectAll constGen 5 0 "not-a-url"
    "alice" aliceStore (Or.inr rfl)

/-! ## Key well-formedness is preserved by every operation -/

theorem WF_filter (s : Store) (p : String × Entry → Bool) (h : s.WF) :
    ((s.urls.filter p).map Prod.fst).Nodup :=
  ((List.filter_sublist s.urls).map Prod.fst).nodup h

theorem WF_delUrl (s : Store) (code : String) (h : s.WF) :
    (s.delUrl code).WF :=
  WF_filter s _ h

theorem WF_setUrl (s : Store) (code : String) (m : UrlMapping) (ttl : Nat)
    (h : s.WF) : (s.setUrl code m ttl).WF := by
  simp only [Store.WF, Store.setUrl, List.map_cons, List.nodup_cons]
  refine ⟨?_, WF_filter s _ h⟩
  intro hmem
  simp only [List.mem_map, List.mem_filter, bne_iff_ne, ne_eq] at hmem
  obtain ⟨e, ⟨-, hne⟩, he⟩ := hmem
  exact hne he

theorem WF_sadd (s : Store) (c k : String) (h : s.WF) : (s.sadd c k).WF := h

theorem WF_srem (s : Store) (c k : String) (h : s.WF) : (s.srem c k).WF := h

theorem WF_shortenUrl {validUrl : String → Bool} {gen : Nat → String}
    {fuel : Nat} {now : Time} {longUrl clientId : String} {s : Store}
    {r : Except UrlError String} {s2 : Store}
    (heq : shortenUrl validUrl gen fuel now longUrl clientId s = some (r, s2))
    (h : s.WF) : s2.WF := by
  unfold shortenUrl at heq
  split at heq
  · obtain ⟨-, rfl⟩ := Prod.mk.injEq .. ▸ Option.some.inj heq
    exact h
  · split at heq
    · obtain ⟨-, rfl⟩ := Prod.mk.injEq .. ▸ Option.some.inj heq
      exact h
    · split at heq
      · exact absurd heq (by simp)
      · obtain ⟨-, rfl⟩ := Prod.mk.injEq .. ▸ Option.some.inj heq
        exact WF_sadd _ _ _ (WF_setUrl _ _ _ _ h)

theorem WF_lookupUrl (now : Time) (code : String) (cid : Option String)
    (s : Store) (h : s.WF) : (lookupUrl now code cid s).2.WF := by
  unfold lookupUrl
  split
  · exact h
  · split
    · exact h
    · split
      · dsimp only
        split
        · exact WF_srem _ _ _ (WF_delUrl _ _ h)
        · exact WF_delUrl _ _ h
      · exact h

theorem WF_extendUrl (now : Time) (code clientId : String) (s : Store)
    (h : s.WF) : (extendUrl now code clientId s).2.WF := by
  unfold extendUrl
  split
  · exact h
  · split
    · exact h
    · split
      · exact h
      · split
        · exact WF_srem _ _ _ (WF_delUrl _ _ h)
        · exact WF_setUrl _ _ _ _ h

theorem WF_collectStep (now : Time) (clientId : String)
    (st : Store × List UrlMapping) (code : String) (h : st.1.WF) :
    (collectStep now clientId st code).1.WF := by
  unfold collectStep
  split
  · exact h
  · split
    · exact h
    · exact WF_srem _ _ _ (WF_delUrl _ _ h)

theorem WF_collectFold (now : Time) (clientId : String) :
    ∀ (codes : List String) (st : Store × List UrlMapping), st.1.WF →
      (codes.foldl (collectStep now clientId) st).1.WF := by
  intro codes
  induction codes with
  | nil => intro st h; exact h
  | cons c cs ih =>
    intro st h
    exact ih _ (WF_collectStep now clientId st c h)

theorem WF_getUrls (now : Time) (page pageSize : Nat) (clientId : String)
    (s : Store) (h : s.WF) : (getUrls now page pageSize clientId s).2.WF := by
  unfold getUrls
  split
  · exact h
  · rcases hcm : collectMappings now clientId s with ⟨s1, mappings⟩
    have := WF_collectFold now clientId (s.userCodes clientId) (s, []) h
    rw [show (s.userCodes clientId).foldl (collectStep now clientId) (s, []) =
      collectMappings now clientId s from rfl, hcm] at this
    simpa [hcm] using this

theorem WF_reachable {s : Store} (h : Reachable s) : s.WF := by
  induction h with
  | empty => exact List.nodup_nil
  | create _ heq ih => exact WF_shortenUrl heq ih
  | lookup _ ih => exact WF_lookupUrl _ _ _ _ ih
  | extend _ ih => exact WF_extendUrl _ _ _ _ ih
  | list _ ih => exact WF_getUrls _ _ _ _ _ ih

/-- In an association list with pairwise-distinct keys, at most one entry
satisfies any predicate that pins the key. -/
theorem countP_le_one_of_nodup_keys
    (l : List (String × Entry)) (code : String) (p : String × Entry → Bool)
    (hnd : (l.map Prod.fst).Nodup) (hp : ∀ e, p e = true → e.1 = code) :
    l.countP p ≤ 1 := by
  induction l with
  | nil => simp
  | cons e rest ih =>
    simp only [List.map_cons, List.nodup_cons] at hnd
    rw [List.countP_cons]
    by_cases hpe : p e = true
    · have he1 : e.1 = code := hp e hpe
      have hzero : rest.countP p = 0 := by
        rw [List.countP_eq_zero]
        intro x hx hpx
        have hx1 : x.1 = e.1 := by rw [hp x hpx, he1]
        exact absurd (hx1 ▸ List.mem_map_of_mem Prod.fst hx) hnd.1
      simp [hpe, hzero]
    · have hf : p e = false := by
        cases hb : p e
        · rfl
        · exact absurd hb hpe
      rw [hf]
      simpa using ih hnd.2

/-! ## The collision-retry loop -/

theorem findFresh_some_spec (s : Store) (gen : Nat → String) :
    ∀ (fuel i : Nat) (c : String), findFresh s gen i fuel = some c →
      s.urlExists c = false ∧ ∃ j, j < fuel ∧ c = gen (i + j) := by
  intro fuel
  induction fuel with
  | zero => intro i c h; exact absurd h (by simp [findFresh])
  | succ n ih =>
    intro i c h
    unfold findFresh at h
    by_cases hex : s.urlExists (gen i) = true
    · rw [if_pos hex] at h
      obtain ⟨hc, j, hj, hcj⟩ := ih (i + 1) c h
      refine ⟨hc, j + 1, by omega, ?_⟩
      rw [show i + (j + 1) = (i + 1) + j from by omega]
      exact hcj
    · rw [if_neg hex] at h
      obtain rfl := Option.some.inj h
      refine ⟨by simpa using hex, 0, by omega, by simp⟩

theorem findFresh_none_iff (s : Store) (gen : Nat → String) :
    ∀ (fuel i : Nat),
      findFresh s gen i fuel = none ↔
        ∀ j, j < fuel → s.urlExists (gen (i + j)) = true := by
  intro fuel
  induction fuel with
  | zero => intro i; simp [findFresh]
  | succ n ih =>
    intro i
    unfold findFresh
    by_cases hex : s.urlExists (gen i) = true
    · rw [if_pos hex, ih (i + 1)]
      constructor
      · intro h j hj
        cases j with
        | zero => simpa using hex
        | succ k =>
          rw [show i + (k + 1) = (i + 1) + k from by omega]
          exact h k (by omega)
      · intro h j hj
        rw [show (i + 1) + j = i + (j + 1) from by omega]
        exact h (j + 1) (by omega)
    · rw [if_neg hex]
      constructor
      · intro h
        exact absurd h (by simp)
      · intro h
        exact absurd (by simpa using h 0 (by omega)) hex

/-- C8: in every state reachable by sequences of the four operations, each
short code identifies at most one currently-live mapping, and create only
persists a candidate code whose existence check reported absence. -/
theorem shortCode_unique_live (s : Store) (h : Reachable s) :
    (∀ (now : Time) (code : String),
      s.urls.countP
        (fun e => e.1 == code && decide (now < e.2.mapping.expiresAt)) ≤ 1) ∧
    (∀ (validUrl : String → Bool) (gen : Nat → String) (fuel : Nat)
        (now : Time) (longUrl clientId code : String) (s2 : Store),
      shortenUrl validUrl gen fuel now longUrl clientId s =
        some (.ok code, s2) → s.urlExists code = false) := by
  constructor
  · intro now code
    refine countP_le_one_of_nodup_keys s.urls code _ (WF_reachable h) ?_
    intro e he
    simp only [Bool.and_eq_true, beq_iff_eq] at he
    exact he.1
  · intro validUrl gen fuel now longUrl clientId code s2 heq
    unfold shortenUrl at heq
    split at heq
    · exact absurd (Prod.mk.injEq .. ▸ Option.some.inj heq).1 (by simp)
    · split at heq
      · exact absurd (Prod.mk.injEq .. ▸ Option.some.inj heq).1 (by simp)
      · split at heq
        · exact absurd heq (by simp)
        · next c hfind =>
          obtain ⟨hok, -⟩ := Prod.mk.injEq .. ▸ Option.some.inj heq
          obtain rfl := Except.ok.inj hok
          exact (findFresh_some_spec s gen fuel 0 c hfind).1

/-- Witness for C8 at the reachable state `aliceStore` (created from the
empty store), with a colliding create attempt. -/
theorem shortCode_unique_live_witness :
    (∀ (now : Time) (code : String),
      aliceStore.urls.countP
        (fun e => e.1 == code && decide (now < e.2.mapping.expiresAt)) ≤ 1) ∧
    (∀ (validUrl : String → Bool) (gen : Nat → String) (fuel : Nat)
        (now : Time) (longUrl clientId code : String) (s2 : Store),
      shortenUrl validUrl gen fuel now longUrl clientId aliceStore =
        some (.ok code, s2) → aliceStore.urlExists code = false) :=
  shortCode_unique_live aliceStore
    (@Reachable.create acceptAll constGen 1 0 "https://example.com" "alice"
      ⟨[], []⟩ (Except.ok "AAAAA") aliceStore Reachable.empty (by decide))

/-- C9 counterexample: with a candidate stream that always returns the code
already stored in `aliceStore`, a create call allowed 12 generation attempts
— beyond the claimed bound of ten retries — has neither succeeded nor failed
with any exhaustion error: the collision loop is simply still running. -/
theorem create_bounded_retry_counterexample :
    shortenUrl acceptAll constGen 12 0 "https://x.com" "bob" aliceStore =
      none := by
  decide

/-- C9 (amended): the collision-retry loop of create is unbounded and has no
`ExhaustedRetries` outcome: for every retry budget, the loop has produced no
outcome precisely when every candidate inspected within the budget collides,
and when it stops it returns a candidate whose existence check reported
absence; create returns no outcome under a budget exactly when its loop does
not. -/
theorem create_retry_unbounded (s : Store) (gen : Nat → String) (fuel : Nat) :
    (findFresh s gen 0 fuel = none ↔
      ∀ j, j < fuel → s.urlExists (gen j) = true) ∧
    (∀ c : String, findFresh s gen 0 fuel = some c →
      s.urlExists c = false) ∧
    (∀ (validUrl : String → Bool) (now : Time) (longUrl clientId : String),
      clientId ≠ "" → validUrl longUrl = true →
      (shortenUrl validUrl gen fuel now longUrl clientId s = none ↔
        findFresh s gen 0 fuel = none)) := by
  refine ⟨?_, ?_, ?_⟩
  · rw [findFresh_none_iff s gen fuel 0]
    simp
  · intro c hc
    exact (findFresh_some_spec s gen fuel 0 c hc).1
  · intro validUrl now longUrl clientId hcid hvalid
    unfold shortenUrl
    rw [if_neg (by simp [hcid]), if_neg (by simp [hvalid])]
    cases hf : findFresh s gen 0 fuel <;> simp

/-- C10: resolve with an explicit empty-string owner id behaves exactly like
resolve with no owner id at all: the ownership check is skipped, the call
never fails `Unauthorized`, and on an expired record it deletes only the
record, leaving the owner index unpruned. -/
theorem resolve_empty_owner_like_none (now : Time) (code : String) (s : Store) :
    lookupUrl now code (some "") s = lookupUrl now code none s ∧
    (lookupUrl now code (some "") s).1 ≠ .error .unauthorized ∧
    (∀ m : UrlMapping, s.getUrl code = some m → m.expiresAt ≤ now →
      lookupUrl now code (some "") s = (.error .notFound, s.delUrl code)) := by
  refine ⟨rfl, ?_, ?_⟩
  · unfold lookupUrl
    cases h : s.getUrl code with
    | none => simp
    | some m =>
      dsimp only
      rw [if_neg (by simp [truthy])]
      split <;> simp
  · intro m hm hexp
    unfold lookupUrl
    rw [hm]
    dsimp only
    rw [if_neg (by simp [truthy]), if_pos hexp]
    rfl

end UrlShortener
